import Mathlib

/-!
Shallow embedding of `src/script.js` (browser animation-playground demo).

Modelling conventions:
* JavaScript numbers are modelled as `JSNum`: a finite rational, `+Infinity`,
  `-Infinity`, or `NaN`.  Finite doubles are embedded as exact rationals;
  floating-point rounding of the computed values is not modelled (the
  factorial claim stops at `n = 20`, and every factorial up to `20!` is
  exactly representable as a double).  The one rounding effect a claim does
  depend on is modelled explicitly: the factorial loop counter is a double,
  and `i++` stalls at `2^53` (`2^53 + 1` rounds back to `2^53`), so the
  loop diverges for every finite bound `≥ 2^53`, not only for `+Infinity`.
* `Math.sqrt` on a nonnegative finite double and `Number.prototype.toFixed`
  on a finite double are irrational / format-level operations whose exact
  values no claim depends on; they are passed in as function parameters
  (`sqrtFn`, `toFixedFin`).  The parts the claims do depend on are embedded
  concretely: `Math.sqrt x = NaN` for `x < 0`, and `NaN.toFixed(2) = "NaN"`.
* `setInterval`/`clearInterval` are modelled by an explicit scheduler state
  `Sched`: `setInterval` allocates a fresh positive id and marks it live,
  `clearInterval` removes it from the live set.  Browser timer ids are
  positive integers, so allocation starts at 1 (this matters because the
  code tests handles for truthiness: `if (this.animationInterval)`).
* Strings are Lean `String`s; `toUpperCase`/`toLowerCase` and the regex
  class `\w` are modelled at the ASCII level, which covers all characters
  the claims mention.
-/

/-- A JavaScript number value: finite (exact rational), infinities, or NaN. -/
inductive JSNum where
  | finite (q : ℚ)
  | posInf
  | negInf
  | nan
deriving DecidableEq, Repr

/-- A JavaScript value as seen by `performCalculations`'s guard:
either a number or some non-number value (`typeof number !== 'number'`). -/
inductive JSValue where
  | num (n : JSNum)
  | other
deriving DecidableEq, Repr

/-- `isNaN(x)` for a number argument. -/
def JSNum.isNaNb : JSNum → Bool
  | .nan => true
  | _ => false

/-- IEEE-754 / ECMAScript multiplication lifted to `JSNum`
(finite products taken exactly; `0 * Infinity = NaN`). -/
def jsMul : JSNum → JSNum → JSNum
  | .nan, _ => .nan
  | _, .nan => .nan
  | .finite a, .finite b => .finite (a * b)
  | .posInf, .posInf => .posInf
  | .posInf, .negInf => .negInf
  | .negInf, .posInf => .negInf
  | .negInf, .negInf => .posInf
  | .posInf, .finite b => if 0 < b then .posInf else if b < 0 then .negInf else .nan
  | .negInf, .finite b => if 0 < b then .negInf else if b < 0 then .posInf else .nan
  | .finite a, .posInf => if 0 < a then .posInf else if a < 0 then .negInf else .nan
  | .finite a, .negInf => if 0 < a then .negInf else if a < 0 then .posInf else .nan

/-- `Math.sqrt` lifted to `JSNum`.  Negative arguments (and NaN) give NaN;
the value on nonnegative finite arguments is the parameter `sqrtFn`. -/
def jsSqrt (sqrtFn : ℚ → ℚ) : JSNum → JSNum
  | .finite q => if q < 0 then .nan else .finite (sqrtFn q)
  | .posInf => .posInf
  | .negInf => .nan
  | .nan => .nan

/-- `x.toFixed(2)`: `"NaN"` on NaN, `"Infinity"`/`"-Infinity"` on the
infinities, and the parameter `toFixedFin` on finite values. -/
def toFixed2 (toFixedFin : ℚ → String) : JSNum → String
  | .finite q => toFixedFin q
  | .posInf => "Infinity"
  | .negInf => "-Infinity"
  | .nan => "NaN"

/-- `number % 2 === 0` for a `JSNum`: the ECMAScript remainder of a finite
number by 2 is zero exactly when the number is an even integer multiple of 2,
i.e. when `q / 2` is an integer; `Infinity % 2` and `NaN % 2` are NaN. -/
def jsIsEven : JSNum → Bool
  | .finite q => (q / 2).den == 1
  | _ => false

/-- The loop `let result = 1; for (let i = 2; i <= number; i++) result *= i;`
for a finite bound `q`: it multiplies the integers `2, 3, ..., ⌊q⌋`
(no iterations when `⌊q⌋ < 2`). -/
def factLoop (q : ℚ) : ℚ :=
  (List.range' 2 (⌊q⌋ - 1).toNat).foldl (fun r (i : ℕ) => r * (i : ℚ)) 1

/-- The IIFE computing the `factorial` field.  The outer `Option` is
termination, `none` meaning the loop `for (let i = 2; i <= number; i++)`
never exits.  The counter `i` is a double: it climbs exactly up to `2^53`,
where `i++` stalls (`2^53 + 1` rounds back to `2^53` under
round-to-nearest-even).  So the loop diverges exactly when the bound keeps
`i <= number` true forever: for every finite `number ≥ 2^53` and for
`+Infinity`; for finite bounds below `2^53` every increment is exact and
the loop multiplies `2, ..., ⌊number⌋`.  The inner `Option` is the JS
value: `none` is `undefined` (negative input), `some r` a numeric result.
On NaN (unreachable past the guard) every comparison is false, so the loop
body never runs and the result is 1. -/
def factorialJS : JSNum → Option (Option ℚ)
  | .finite q =>
      if q < 0 then some none
      else if q = 0 ∨ q = 1 then some (some 1)
      else if (2 : ℚ) ^ 53 ≤ q then none
      else some (some (factLoop q))
  | .negInf => some none
  | .posInf => none
  | .nan => some (some 1)

/-- The object returned by `performCalculations`. -/
structure CalcResult where
  squared : JSNum
  cubed : JSNum
  squareRoot : String
  isEven : Bool
  factorial : Option ℚ
deriving DecidableEq, Repr

/-- Outcome of calling `performCalculations`: a thrown error, divergence
(the factorial loop never terminating), or a normal return. -/
inductive CalcOutcome where
  | thrown (msg : String)
  | diverges
  | ok (r : CalcResult)
deriving DecidableEq, Repr

/-- Whether the call ended in a thrown error. -/
def CalcOutcome.isThrown : CalcOutcome → Bool
  | .thrown _ => true
  | _ => false

/-- Whether the call returned normally. -/
def CalcOutcome.isOk : CalcOutcome → Bool
  | .ok _ => true
  | _ => false

/-- `performCalculations(number)` from `src/script.js`:
guard `typeof number !== 'number' || isNaN(number)` throws
`'Invalid input: must be a number'`; otherwise the result object is built
(evaluating the factorial IIFE as part of the object literal). -/
def performCalculations (sqrtFn : ℚ → ℚ) (toFixedFin : ℚ → String) :
    JSValue → CalcOutcome
  | .other => .thrown "Invalid input: must be a number"
  | .num n =>
      if n.isNaNb then .thrown "Invalid input: must be a number"
      else
        match factorialJS n with
        | none => .diverges
        | some f =>
            .ok { squared := jsMul n n
                  cubed := jsMul (jsMul n n) n
                  squareRoot := toFixed2 toFixedFin (jsSqrt sqrtFn n)
                  isEven := jsIsEven n
                  factorial := f }

/-- The `factorial` field of a normal return (`some (some r)` numeric,
`some none` for `undefined`, `none` when the call did not return). -/
def CalcOutcome.factorialField : CalcOutcome → Option (Option ℚ)
  | .ok r => some r.factorial
  | _ => none

/-- The `squareRoot` field of a normal return. -/
def CalcOutcome.squareRootField : CalcOutcome → Option String
  | .ok r => some r.squareRoot
  | _ => none

/-! ### Text formatter -/

/-- ASCII model of the regex character class in `/\b\w/g`:
`\w` is `[A-Za-z0-9_]`. -/
def isWordChar (c : Char) : Bool := c.isAlphanum || c == '_'

/-- `text.replace(/\b\w/g, char => char.toUpperCase())` over the character
list: a word character is replaced by its uppercase exactly when the
preceding character (tracked by `prevW`; `false` at the start of the string)
is not a word character — i.e. at a word boundary. -/
def capitalizeChars : Bool → List Char → List Char
  | _, [] => []
  | prevW, c :: cs =>
      (if isWordChar c && !prevW then c.toUpper else c) ::
        capitalizeChars (isWordChar c) cs

/-- `text.toUpperCase()` (ASCII model), characterwise. -/
def jsToUpperCase (s : String) : String := String.mk (s.toList.map Char.toUpper)

/-- `text.toLowerCase()` (ASCII model), characterwise. -/
def jsToLowerCase (s : String) : String := String.mk (s.toList.map Char.toLower)

/-- `formatText(text, style = 'capitalize')` from `src/script.js`. -/
def formatText (text : String) (style : String := "capitalize") : String :=
  if style = "upper" then jsToUpperCase text
  else if style = "lower" then jsToLowerCase text
  else if style = "capitalize" then String.mk (capitalizeChars false text.toList)
  else text

/-- Whether the character before position `i` is a word character
(`b` is the convention for position 0). -/
def prevWordAt (b : Bool) (l : List Char) (i : ℕ) : Bool :=
  match i with
  | 0 => b
  | j + 1 => isWordChar (l.getD j ' ')

/-! ### Color generator -/

/-- The lookup string `letters = '0123456789ABCDEF'`. -/
def hexLetters : List Char := "0123456789ABCDEF".toList

/-- `letters[k]`: the index produced by `Math.floor(Math.random() * 16)` is
always in `0..15` because `Math.random()` lies in `[0, 1)`. -/
def hexLetter (k : Fin 16) : Char := hexLetters.getD k.val ' '

/-- `getRandomColor()` with the six random draws passed in as `draw`. -/
def getRandomColor (draw : ℕ → Fin 16) : String :=
  (List.range 6).foldl (fun color i => color.push (hexLetter (draw i))) "#"

/-- An uppercase hexadecimal digit, i.e. the character class `[0-9A-F]`. -/
def isUpperHexDigit (c : Char) : Bool :=
  (decide ('0' ≤ c) && decide (c ≤ '9')) || (decide ('A' ≤ c) && decide (c ≤ 'F'))

/-- The regex `^#[0-9A-F]\x7b6\x7d$`: a hash sign followed by exactly six
uppercase hexadecimal digits. -/
def isColorPattern (s : String) : Bool :=
  match s.toList with
  | '#' :: rest => rest.length == 6 && rest.all isUpperHexDigit
  | _ => false

/-! ### DOM classList and `toggleClass` -/

/-- `element.classList.add(c)`: a no-op when the token is already present,
otherwise appends it. -/
def classAdd (classes : List String) (c : String) : List String :=
  if classes.contains c then classes else classes ++ [c]

/-- `element.classList.remove(c)`. -/
def classRemove (classes : List String) (c : String) : List String :=
  classes.filter (fun x => x != c)

/-- `element.classList.toggle(c)`. -/
def classToggle (classes : List String) (c : String) : List String :=
  if classes.contains c then classRemove classes c else classAdd classes c

/-- `toggleClass(element, className, force)` from `src/script.js`:
`force === true` adds, `force === false` removes, anything else
(modelled as `none`) toggles. -/
def toggleClass (classes : List String) (className : String)
    (force : Option Bool) : List String :=
  match force with
  | some true => classAdd classes className
  | some false => classRemove classes className
  | none => classToggle classes className

/-! ### Timer scheduler

`setInterval`/`setTimeout` hand out fresh positive integer ids; the `active`
list is the set of live (not yet cleared) timers created by the owner. -/

structure Sched where
  nextId : ℕ
  active : List ℕ
deriving DecidableEq, Repr

/-- Fresh scheduler; browser timer ids are positive, so allocation starts
at 1 (the code tests handles for truthiness, and 0 would be falsy). -/
def Sched.start : Sched := ⟨1, []⟩

/-- `setInterval(cb, ms)`: allocate a fresh id and mark it live. -/
def Sched.setTimer (s : Sched) : ℕ × Sched :=
  (s.nextId, ⟨s.nextId + 1, s.nextId :: s.active⟩)

/-- `clearInterval(id)`. -/
def Sched.clearTimer (s : Sched) (id : ℕ) : Sched :=
  ⟨s.nextId, s.active.filter (fun x => x != id)⟩

/-! ### AnimationController -/

/-- The parts of the `animatedBox` DOM element the controller touches. -/
structure BoxState where
  classes : List String
  transform : String
  background : String
deriving DecidableEq, Repr

/-- `AnimationController` instance state; `rotation` is the `rotation`
closure variable of the currently installed interval callback. -/
structure AnimCtrl where
  box : BoxState
  animationInterval : Option ℕ
  isAnimating : Bool
  rotation : ℕ
deriving DecidableEq, Repr

/-- `new AnimationController(boxElement)`. -/
def AnimCtrl.make (box : BoxState) : AnimCtrl :=
  { box := box, animationInterval := none, isAnimating := false, rotation := 0 }

/-- `startAnimation()`: early return when `isAnimating`; otherwise set the
flag, add the `animate` class, and install an interval (fresh closure with
`rotation = 0`). -/
def startAnimation : AnimCtrl × Sched → AnimCtrl × Sched
  | (c, s) =>
    if c.isAnimating then (c, s)
    else
      let (id, s1) := s.setTimer
      ({ c with isAnimating := true,
                box := { c.box with classes := classAdd c.box.classes "animate" },
                rotation := 0,
                animationInterval := some id }, s1)

/-- One firing of the interval callback: only happens while the installed
interval id is still live. -/
def animTick : AnimCtrl × Sched → AnimCtrl × Sched
  | (c, s) =>
    match c.animationInterval with
    | some id =>
        if s.active.contains id then
          let r := (c.rotation + 2) % 360
          ({ c with rotation := r,
                    box := { c.box with
                             transform := "rotate(" ++ toString r ++ "deg)" } }, s)
        else (c, s)
    | none => (c, s)

/-- `stopAnimation()`: clear the flag, remove the `animate` class, and when
the handle is truthy, `clearInterval` it and null it out. -/
def stopAnimation : AnimCtrl × Sched → AnimCtrl × Sched
  | (c, s) =>
    let c1 := { c with isAnimating := false,
                       box := { c.box with
                                classes := classRemove c.box.classes "animate" } }
    match c1.animationInterval with
    | some id =>
        if id != 0 then ({ c1 with animationInterval := none }, s.clearTimer id)
        else (c1, s)
    | none => (c1, s)

/-- `resetAnimation()`: `this.stopAnimation()` then restore the default
transform and background. -/
def resetAnimation (p : AnimCtrl × Sched) : AnimCtrl × Sched :=
  let (c, s) := stopAnimation p
  ({ c with box := { c.box with
                     transform := "rotate(0deg)",
                     background := "linear-gradient(45deg, #667eea, #764ba2)" } }, s)

/-- Stated from the spec sentence for comparison with `resetAnimation`:
`reset` is equivalent to `stop` followed by restoring a canonical default
transform and background. -/
def resetSpec (p : AnimCtrl × Sched) : AnimCtrl × Sched :=
  let q := stopAnimation p
  ({ q.1 with box := { q.1.box with
                       transform := "rotate(0deg)",
                       background := "linear-gradient(45deg, #667eea, #764ba2)" } },
   q.2)

/-- The externally triggerable events of an `AnimationController`. -/
inductive AnimOp where
  | start
  | stop
  | reset
  | tick
deriving DecidableEq, Repr

/-- Run a sequence of events from a freshly constructed controller. -/
def execAnim (box : BoxState) (ops : List AnimOp) : AnimCtrl × Sched :=
  ops.foldl
    (fun p op =>
      match op with
      | .start => startAnimation p
      | .stop => stopAnimation p
      | .reset => resetAnimation p
      | .tick => animTick p)
    (AnimCtrl.make box, Sched.start)

/-! ### FlipCardManager -/

/-- `FlipCardManager` instance state plus the card element's classList. -/
structure FlipCard where
  cardClasses : List String
  isFlipped : Bool
deriving DecidableEq, Repr

/-- `new FlipCardManager(cardElement)`. -/
def FlipCard.make (cardClasses : List String) : FlipCard :=
  { cardClasses := cardClasses, isFlipped := false }

/-- `flip()`: invert the flag and force the `flipped` class to match it. -/
def FlipCard.flip (f : FlipCard) : FlipCard :=
  let flipped := !f.isFlipped
  { isFlipped := flipped,
    cardClasses := toggleClass f.cardClasses "flipped" (some flipped) }

/-- `reset()`: force not-flipped and remove the class. -/
def FlipCard.reset (f : FlipCard) : FlipCard :=
  { isFlipped := false, cardClasses := classRemove f.cardClasses "flipped" }

/-- Flip-card events. -/
inductive FlipOp where
  | flip
  | reset
deriving DecidableEq, Repr

/-- Run a sequence of flip-card events from a fresh manager. -/
def execFlip (card : List String) (ops : List FlipOp) : FlipCard :=
  ops.foldl
    (fun f op => match op with | .flip => f.flip | .reset => f.reset)
    (FlipCard.make card)

/-- The reachable states of a flip card whose element initially lacks the
`flipped` class: either unflipped with the original classList, or flipped
with the token appended. -/
def flipShape (card0 : List String) (f : FlipCard) : Prop :=
  f = ⟨card0, false⟩ ∨ f = ⟨card0 ++ ["flipped"], true⟩

/-! ### LoadingManager -/

/-- `LoadingManager` instance state; `progress` is the `progress` closure
variable of the currently installed interval callback, and `statusText` the
`textContent` of the status element. -/
structure LoadMgr where
  barClasses : List String
  statusText : String
  loadingInterval : Option ℕ
  isLoading : Bool
  progress : ℚ
deriving DecidableEq, Repr

/-- `new LoadingManager(loadingBar, statusElement)`. -/
def LoadMgr.make (bar : List String) (txt : String) : LoadMgr :=
  { barClasses := bar, statusText := txt, loadingInterval := none,
    isLoading := false, progress := 0 }

/-- `finishLoading()`: clear the flag, remove the `loading` class, set the
completion message, and clear a truthy handle. -/
def finishLoading : LoadMgr × Sched → LoadMgr × Sched
  | (m, s) =>
    let m1 := { m with isLoading := false,
                       barClasses := classRemove m.barClasses "loading",
                       statusText := "Complete!" }
    match m1.loadingInterval with
    | some id =>
        if id != 0 then ({ m1 with loadingInterval := none }, s.clearTimer id)
        else (m1, s)
    | none => (m1, s)

/-- `stopLoading()`: same shape with the `Stopped` message. -/
def stopLoading : LoadMgr × Sched → LoadMgr × Sched
  | (m, s) =>
    let m1 := { m with isLoading := false,
                       barClasses := classRemove m.barClasses "loading",
                       statusText := "Stopped" }
    match m1.loadingInterval with
    | some id =>
        if id != 0 then ({ m1 with loadingInterval := none }, s.clearTimer id)
        else (m1, s)
    | none => (m1, s)

/-- `startLoading()`: early return when `isLoading`; otherwise set the flag,
add the `loading` class, set the status message, and install an interval
(fresh closure with `progress = 0`). -/
def startLoading : LoadMgr × Sched → LoadMgr × Sched
  | (m, s) =>
    if m.isLoading then (m, s)
    else
      let (id, s1) := s.setTimer
      ({ m with isLoading := true,
                barClasses := classAdd m.barClasses "loading",
                statusText := "Loading...",
                progress := 0,
                loadingInterval := some id }, s1)

/-- One firing of the loading interval callback with random increment `r`
(`Math.random() * 10`): add `r` to the closure's progress and call
`finishLoading` once the total reaches 100.  Fires only while the installed
interval id is live. -/
def loadTick (r : ℚ) : LoadMgr × Sched → LoadMgr × Sched
  | (m, s) =>
    match m.loadingInterval with
    | some id =>
        if s.active.contains id then
          let m1 := { m with progress := m.progress + r }
          if m1.progress ≥ 100 then finishLoading (m1, s) else (m1, s)
        else (m, s)
    | none => (m, s)

/-- The externally triggerable events of a `LoadingManager`. -/
inductive LoadOp where
  | start
  | stop
  | finish
  | tick (r : ℚ)

/-- Run a sequence of loading events from a fresh manager. -/
def execLoad (bar : List String) (txt : String) (ops : List LoadOp) :
    LoadMgr × Sched :=
  ops.foldl
    (fun p op =>
      match op with
      | .start => startLoading p
      | .stop => stopLoading p
      | .finish => finishLoading p
      | .tick r => loadTick r p)
    (LoadMgr.make bar txt, Sched.start)

/-- Apply a list of interval-callback firings in order. -/
def runTicks (rs : List ℚ) (p : LoadMgr × Sched) : LoadMgr × Sched :=
  rs.foldl (fun q r => loadTick r q) p

/-- The manager state while a run started from fresh state is still loading
with accumulated progress `p` (the fresh scheduler handed out id 1). -/
def loadingState (bar : List String) (txt : String) (p : ℚ) :
    LoadMgr × Sched :=
  ({ barClasses := classAdd bar "loading", statusText := "Loading...",
     loadingInterval := some 1, isLoading := true, progress := p },
   ⟨2, [1]⟩)

/-- The manager state after such a run completed at progress `p`. -/
def completeState (bar : List String) (txt : String) (p : ℚ) :
    LoadMgr × Sched :=
  ({ barClasses := classRemove (classAdd bar "loading") "loading",
     statusText := "Complete!", loadingInterval := none, isLoading := false,
     progress := p },
   ⟨2, []⟩)

/-! ### debounce -/

/-- One run of a `debounce(func, wait)` wrapper.  `calls` is the
time-ordered list of `(time, args)` calls to the wrapper and `pending` the
currently scheduled `(fireTime, args)` timeout, if any.  The single-threaded
event loop fires a pending timeout whose deadline has passed before the next
wrapper call runs; a wrapper call cancels a still-pending timeout
(`clearTimeout`) and schedules `func` at `wait` after itself with its own
arguments; a pending timeout left at the end fires.  The result is the
sequence of `(time, args)` invocations of `func`. -/
def debounceRun {α : Type} (wait : ℚ) :
    List (ℚ × α) → Option (ℚ × α) → List (ℚ × α)
  | [], none => []
  | [], some p => [p]
  | (t, a) :: rest, none => debounceRun wait rest (some (t + wait, a))
  | (t, a) :: rest, some (ft, b) =>
      if ft ≤ t then (ft, b) :: debounceRun wait rest (some (t + wait, a))
      else debounceRun wait rest (some (t + wait, a))

/-! ### Controller timer invariants -/

/-- Timer bookkeeping invariant of an `AnimationController` and the
scheduler owning its timers: the scheduler's live set is exactly the
current handle, every handed-out handle is a positive allocated id, and
the `isAnimating` flag mirrors the handle. -/
def AnimInv (p : AnimCtrl × Sched) : Prop :=
  1 ≤ p.2.nextId
  ∧ p.2.active =
      (match p.1.animationInterval with | some id => [id] | none => [])
  ∧ (∀ id, p.1.animationInterval = some id → 1 ≤ id ∧ id < p.2.nextId)
  ∧ p.1.isAnimating = p.1.animationInterval.isSome

/-- The same timer bookkeeping invariant for a `LoadingManager`. -/
def LoadInv (p : LoadMgr × Sched) : Prop :=
  1 ≤ p.2.nextId
  ∧ p.2.active =
      (match p.1.loadingInterval with | some id => [id] | none => [])
  ∧ (∀ id, p.1.loadingInterval = some id → 1 ≤ id ∧ id < p.2.nextId)
  ∧ p.1.isLoading = p.1.loadingInterval.isSome

/-- The product of the integers `2, ..., k + 1` is `(k + 1)!`. -/
theorem factLoop_range (k : ℕ) :
    (List.range' 2 k).foldl (fun r (i : ℕ) => r * (i : ℚ)) 1 =
      (Nat.factorial (k + 1) : ℚ) := by
  induction k with
  | zero => simp [Nat.factorial]
  | succ m ih =>
      rw [List.range'_concat, List.foldl_append, ih]
      simp only [List.foldl_cons, List.foldl_nil, Nat.factorial_succ]
      push_cast
      ring

/-- The factorial loop agrees with `Nat.factorial` on natural bounds `≥ 2`. -/
theorem factLoop_natCast (n : ℕ) (h : 2 ≤ n) :
    factLoop (n : ℚ) = (Nat.factorial n : ℚ) := by
  have hfloor : ⌊(n : ℚ)⌋ = (n : ℤ) := Int.floor_natCast n
  have hlen : ((n : ℤ) - 1).toNat = n - 1 := by omega
  rw [factLoop, hfloor, hlen, factLoop_range]
  have hn : n - 1 + 1 = n := by omega
  rw [hn]

/-! ### Claim C1 (error guard) -/

/-- The claim that every non-finite argument throws is false: `-Infinity` is
not finite, yet `performCalculations(-Infinity)` passes the
`typeof number !== 'number' || isNaN(number)` guard and returns normally
(its factorial field is `undefined`). -/
theorem performCalculations_negInf_returns :
    (performCalculations (fun _ => 0) (fun _ => "") (.num .negInf)).isThrown = false
    ∧ (performCalculations (fun _ => 0) (fun _ => "") (.num .negInf)).isOk = true := by
  exact ⟨rfl, rfl⟩

/-- C1 (amended): `performCalculations` throws the `InvalidInput` error
exactly when the argument is not a number value or is `NaN`.  Every finite
number below `2^53` returns normally; every finite number at or above
`2^53` makes the factorial loop diverge (the double counter `i++` stalls at
`2^53`).  Neither infinity throws: `-Infinity` returns normally, and
`+Infinity` makes the factorial loop diverge. -/
theorem performCalculations_throw_iff (sqrtFn : ℚ → ℚ) (tf : ℚ → String) :
    (∀ v : JSValue,
      (performCalculations sqrtFn tf v).isThrown = true ↔ v = .other ∨ v = .num .nan)
    ∧ (∀ q : ℚ, q < 2 ^ 53 →
        (performCalculations sqrtFn tf (.num (.finite q))).isOk = true)
    ∧ (∀ q : ℚ, 2 ^ 53 ≤ q →
        performCalculations sqrtFn tf (.num (.finite q)) = .diverges)
    ∧ (performCalculations sqrtFn tf (.num .negInf)).isOk = true
    ∧ performCalculations sqrtFn tf (.num .posInf) = .diverges := by
  refine ⟨?_, ?_, ?_, rfl, rfl⟩
  · intro v
    rcases v with n | _
    · cases n with
      | finite q =>
          have hne : (performCalculations sqrtFn tf
              (.num (.finite q))).isThrown = false := by
            simp only [performCalculations, JSNum.isNaNb, Bool.false_eq_true,
              if_false, factorialJS]
            split_ifs <;> rfl
          simp [hne]
      | posInf =>
          simp [performCalculations, JSNum.isNaNb, factorialJS,
            CalcOutcome.isThrown]
      | negInf =>
          simp [performCalculations, JSNum.isNaNb, factorialJS,
            CalcOutcome.isThrown]
      | nan =>
          simp [performCalculations, JSNum.isNaNb, factorialJS,
            CalcOutcome.isThrown]
    · simp [performCalculations, CalcOutcome.isThrown]
  · intro q hq
    by_cases h0 : q < 0
    · simp [performCalculations, JSNum.isNaNb, factorialJS, h0,
        CalcOutcome.isOk]
    · by_cases h1 : q = 0 ∨ q = 1
      · simp [performCalculations, JSNum.isNaNb, factorialJS, h0, h1,
          CalcOutcome.isOk]
      · simp [performCalculations, JSNum.isNaNb, factorialJS, h0, h1,
          not_le.mpr hq, CalcOutcome.isOk]
  · intro q hq
    have h0 : ¬(q < 0) := by
      push_neg
      have h53 : (0 : ℚ) ≤ 2 ^ 53 := by norm_num
      linarith
    have h1 : ¬(q = 0 ∨ q = 1) := by
      rintro (rfl | rfl) <;> norm_num at hq
    simp [performCalculations, JSNum.isNaNb, factorialJS, h0, h1, hq]

/-- Witness for C1 (amended): 7 is below `2^53` and returns normally;
`2^53` itself makes the call diverge. -/
theorem performCalculations_throw_iff_witness :
    (performCalculations (fun _ => 0) (fun _ => "")
        (.num (.finite 7))).isOk = true
    ∧ performCalculations (fun _ => 0) (fun _ => "")
        (.num (.finite (2 ^ 53 : ℚ))) = .diverges :=
  ⟨(performCalculations_throw_iff (fun _ => 0) (fun _ => "")).2.1 7
      (by norm_num),
   (performCalculations_throw_iff (fun _ => 0) (fun _ => "")).2.2.1 (2 ^ 53)
      (by norm_num)⟩

/-! ### Claim C2 (factorial field) -/

/-- C2: for every nonnegative integer `n ≤ 20` the factorial field of
`performCalculations(n)` is `n!` (standard recursive definition, with
`0! = 1! = 1`), and for every negative finite number the factorial field is
`undefined`. -/
theorem performCalculations_factorial (sqrtFn : ℚ → ℚ) (tf : ℚ → String) :
    (∀ n : ℕ, n ≤ 20 →
      (performCalculations sqrtFn tf (.num (.finite (n : ℚ)))).factorialField
        = some (some (Nat.factorial n : ℚ)))
    ∧ (∀ q : ℚ, q < 0 →
      (performCalculations sqrtFn tf (.num (.finite q))).factorialField
        = some none) := by
  constructor
  · intro n hn
    rcases Nat.lt_or_ge n 2 with h2 | h2
    · interval_cases n <;> rfl
    · have h0 : ¬((n : ℚ) < 0) := not_lt.mpr (Nat.cast_nonneg n)
      have h1 : ¬((n : ℚ) = 0 ∨ (n : ℚ) = 1) := by
        push_neg
        simp only [ne_eq, Nat.cast_eq_zero, Nat.cast_eq_one]
        omega
      have h53 : ¬((2 : ℚ) ^ 53 ≤ (n : ℚ)) := by
        push_neg
        have hn20 : (n : ℚ) ≤ 20 := by exact_mod_cast hn
        have hb : (20 : ℚ) < 2 ^ 53 := by norm_num
        linarith
      simp only [performCalculations, JSNum.isNaNb, factorialJS,
        CalcOutcome.factorialField, if_neg h0, if_neg h1, if_neg h53,
        factLoop_natCast n h2]
      rfl
  · intro q hq
    simp [performCalculations, JSNum.isNaNb, factorialJS,
      CalcOutcome.factorialField, hq]

/-- Witness for C2 at `n = 5` and `q = -3`. -/
theorem performCalculations_factorial_witness :
    (performCalculations (fun _ => 0) (fun _ => "")
        (.num (.finite ((5 : ℕ) : ℚ)))).factorialField
      = some (some (Nat.factorial 5 : ℚ))
    ∧ (performCalculations (fun _ => 0) (fun _ => "")
        (.num (.finite (-3 : ℚ)))).factorialField = some none :=
  ⟨(performCalculations_factorial _ _).1 5 (by norm_num),
   (performCalculations_factorial _ _).2 (-3) (by norm_num)⟩

/-! ### Claim C9 (square root of a negative number) -/

/-- C9: every negative finite argument returns normally, and its
`squareRoot` field is the string `"NaN"`: `Math.sqrt` of a negative number
is NaN, and `NaN.toFixed(2)` is `"NaN"`. -/
theorem performCalculations_neg_sqrt (sqrtFn : ℚ → ℚ) (tf : ℚ → String)
    (q : ℚ) (hq : q < 0) :
    (performCalculations sqrtFn tf (.num (.finite q))).isOk = true
    ∧ (performCalculations sqrtFn tf (.num (.finite q))).squareRootField
        = some "NaN" := by
  constructor
  · simp [performCalculations, JSNum.isNaNb, factorialJS, hq,
      CalcOutcome.isOk]
  · simp [performCalculations, JSNum.isNaNb, factorialJS,
      CalcOutcome.squareRootField, toFixed2, jsSqrt, hq]

/-- Witness for C9 at `q = -4`. -/
theorem performCalculations_neg_sqrt_witness :
    (performCalculations (fun _ => 0) (fun _ => "")
        (.num (.finite (-4 : ℚ)))).isOk = true
    ∧ (performCalculations (fun _ => 0) (fun _ => "")
        (.num (.finite (-4 : ℚ)))).squareRootField = some "NaN" :=
  performCalculations_neg_sqrt (fun _ => 0) (fun _ => "") (-4) (by norm_num)

/-! ### Claim C7 (formatText) -/

/-- `capitalizeChars` preserves length. -/
theorem capitalizeChars_length (b : Bool) (l : List Char) :
    (capitalizeChars b l).length = l.length := by
  induction l generalizing b with
  | nil => rfl
  | cons c cs ih => simp [capitalizeChars, ih]

/-- Shifting `prevWordAt` under a cons. -/
theorem prevWordAt_cons (b : Bool) (c : Char) (cs : List Char) (j : ℕ) :
    prevWordAt b (c :: cs) (j + 1) = prevWordAt (isWordChar c) cs j := by
  cases j with
  | zero => rfl
  | succ k => rfl

/-- Positional characterization of the `.replace(/\b\w/g, ...)` pass:
position `i` is uppercased exactly when it holds a word character not
preceded by a word character. -/
theorem capitalizeChars_getD (l : List Char) (b : Bool) (i : ℕ)
    (h : i < l.length) :
    (capitalizeChars b l).getD i ' ' =
      (if isWordChar (l.getD i ' ') && !prevWordAt b l i then
        (l.getD i ' ').toUpper
      else l.getD i ' ') := by
  induction l generalizing b i with
  | nil => simp at h
  | cons c cs ih =>
      cases i with
      | zero => simp [capitalizeChars, prevWordAt]
      | succ j =>
          have hj : j < cs.length := by simpa using h
          simp only [capitalizeChars, List.getD_cons_succ, prevWordAt_cons]
          exact ih (isWordChar c) j hj

/-- C7: `'upper'` fully uppercases, `'lower'` fully lowercases,
`'capitalize'` uppercases exactly the word characters at word boundaries
(first position, or preceded by a non-word character) and leaves every other
position unchanged, any other style returns the text unchanged, and the
three concrete examples from the spec hold. -/
theorem formatText_spec :
    (∀ t : String, formatText t "upper" = jsToUpperCase t)
    ∧ (∀ t : String, formatText t "lower" = jsToLowerCase t)
    ∧ (∀ t : String,
        (formatText t "capitalize").toList.length = t.toList.length
        ∧ ∀ i : ℕ, i < t.toList.length →
            (formatText t "capitalize").toList.getD i ' ' =
              (if isWordChar (t.toList.getD i ' ')
                  && !prevWordAt false t.toList i then
                (t.toList.getD i ' ').toUpper
              else t.toList.getD i ' '))
    ∧ (∀ (t style : String), style ≠ "upper" → style ≠ "lower" →
        style ≠ "capitalize" → formatText t style = t)
    ∧ formatText "hello world" "upper" = "HELLO WORLD"
    ∧ formatText "HELLO" "lower" = "hello"
    ∧ formatText "hello world" "capitalize" = "Hello World" := by
  refine ⟨fun t => rfl, fun t => rfl, ?_, ?_, by decide, by decide, by decide⟩
  · intro t
    refine ⟨capitalizeChars_length false t.toList, ?_⟩
    intro i hi
    exact capitalizeChars_getD t.toList false i hi
  · intro t style h1 h2 h3
    simp [formatText, h1, h2, h3]

/-- Witness for C7: the capitalize characterization at `"ab cd"`, index 3,
and the pass-through at the unrecognized style `"title"`. -/
theorem formatText_spec_witness :
    (formatText "ab cd" "capitalize").toList.getD 3 ' ' =
      (if isWordChar (("ab cd" : String).toList.getD 3 ' ')
          && !prevWordAt false ("ab cd" : String).toList 3 then
        (("ab cd" : String).toList.getD 3 ' ').toUpper
      else ("ab cd" : String).toList.getD 3 ' ')
    ∧ formatText "xy" "title" = "xy" :=
  ⟨(formatText_spec.2.2.1 "ab cd").2 3 (by decide),
   formatText_spec.2.2.2.1 "xy" "title" (by decide) (by decide) (by decide)⟩

/-! ### Claim C8 (getRandomColor) -/

/-- Every entry of the lookup string is an uppercase hex digit. -/
theorem hexLetter_isUpperHexDigit (k : Fin 16) :
    isUpperHexDigit (hexLetter k) = true := by
  revert k
  decide

/-- C8: whatever the six random draws are, `getRandomColor()` matches
the pattern of a hash sign followed by exactly six uppercase hexadecimal
digits. -/
theorem getRandomColor_matches_pattern (draw : ℕ → Fin 16) :
    isColorPattern (getRandomColor draw) = true := by
  have hlist : (getRandomColor draw).toList =
      ['#', hexLetter (draw 0), hexLetter (draw 1), hexLetter (draw 2),
       hexLetter (draw 3), hexLetter (draw 4), hexLetter (draw 5)] := rfl
  simp only [isColorPattern, hlist, List.all_cons, List.all_nil,
    hexLetter_isUpperHexDigit, Bool.and_true, Bool.true_and]
  rfl

/-! ### Claim C10 (FlipCardManager) -/

/-- Removing an absent token from a classList changes nothing. -/
theorem classRemove_of_not_mem (l : List String) (c : String) (h : c ∉ l) :
    classRemove l c = l := by
  apply List.filter_eq_self.mpr
  intro x hx
  simp only [bne_iff_ne, ne_eq]
  rintro rfl
  exact h hx

/-- Adding an absent token appends it. -/
theorem classAdd_of_not_mem (l : List String) (c : String) (h : c ∉ l) :
    classAdd l c = l ++ [c] := by
  simp [classAdd, h]

/-- Removing a token present only at the end strips exactly it. -/
theorem classRemove_append_self (l : List String) (c : String) (h : c ∉ l) :
    classRemove (l ++ [c]) c = l := by
  simp only [classRemove, List.filter_append]
  rw [List.filter_eq_self.mpr, List.filter_cons]
  · simp
  · intro x hx
    simp only [bne_iff_ne, ne_eq]
    rintro rfl
    exact h hx

/-- Flipping from the unflipped reachable state. -/
theorem flip_from_unflipped (card0 : List String) (h0 : "flipped" ∉ card0) :
    FlipCard.flip ⟨card0, false⟩ = ⟨card0 ++ ["flipped"], true⟩ := by
  simp only [FlipCard.flip, Bool.not_false, toggleClass]
  rw [classAdd_of_not_mem _ _ h0]

/-- Flipping from the flipped reachable state. -/
theorem flip_from_flipped (card0 : List String) (h0 : "flipped" ∉ card0) :
    FlipCard.flip ⟨card0 ++ ["flipped"], true⟩ = ⟨card0, false⟩ := by
  simp only [FlipCard.flip, Bool.not_true, toggleClass]
  rw [classRemove_append_self _ _ h0]

/-- `flip()` and `reset()` preserve the reachable shape. -/
theorem flipShape_step (card0 : List String) (h0 : "flipped" ∉ card0)
    (f : FlipCard) (hf : flipShape card0 f) :
    flipShape card0 f.flip ∧ flipShape card0 f.reset := by
  rcases hf with rfl | rfl
  · constructor
    · right
      exact flip_from_unflipped card0 h0
    · left
      simp only [FlipCard.reset]
      rw [classRemove_of_not_mem _ _ h0]
  · constructor
    · left
      exact flip_from_flipped card0 h0
    · left
      simp only [FlipCard.reset]
      rw [classRemove_append_self _ _ h0]

/-- Every state reachable from a fresh manager has the shape. -/
theorem execFlip_flipShape (card0 : List String) (h0 : "flipped" ∉ card0)
    (ops : List FlipOp) : flipShape card0 (execFlip card0 ops) := by
  suffices hgen : ∀ (l : List FlipOp) (f : FlipCard), flipShape card0 f →
      flipShape card0 (l.foldl
        (fun f op => match op with | .flip => f.flip | .reset => f.reset) f) by
    exact hgen ops (FlipCard.make card0) (Or.inl rfl)
  intro l
  induction l with
  | nil => intro f hf; exact hf
  | cons op rest ih =>
      intro f hf
      cases op with
      | flip => exact ih _ (flipShape_step card0 h0 f hf).1
      | reset => exact ih _ (flipShape_step card0 h0 f hf).2

/-- C10: from a fresh manager on a card initially lacking the `flipped`
class, after any sequence of `flip()`/`reset()` calls the `isFlipped` flag
is set exactly when the card carries the `flipped` class, and two further
`flip()` calls restore the state (flag and classList) exactly. -/
theorem flipCard_inv (card0 : List String) (h0 : "flipped" ∉ card0)
    (ops : List FlipOp) :
    ((execFlip card0 ops).isFlipped = true ↔
      "flipped" ∈ (execFlip card0 ops).cardClasses)
    ∧ (execFlip card0 ops).flip.flip = execFlip card0 ops := by
  rcases execFlip_flipShape card0 h0 ops with hs | hs <;> rw [hs]
  · refine ⟨?_, ?_⟩
    · simp only [Bool.false_eq_true, false_iff]
      exact h0
    · rw [flip_from_unflipped card0 h0, flip_from_flipped card0 h0]
  · refine ⟨by simp, ?_⟩
    rw [flip_from_flipped card0 h0, flip_from_unflipped card0 h0]

/-- Witness for C10: empty initial classList, one flip. -/
theorem flipCard_inv_witness :
    ((execFlip [] [.flip]).isFlipped = true ↔
      "flipped" ∈ (execFlip [] [.flip]).cardClasses)
    ∧ (execFlip [] [.flip]).flip.flip = execFlip [] [.flip] :=
  flipCard_inv [] (by simp) [.flip]

/-! ### Claim C6 (debounce) -/

/-- While every next call comes before the pending deadline, no invocation
fires mid-burst: only the timeout scheduled by the last call (or the initial
pending one when there are no calls) runs. -/
theorem debounceRun_pending {α : Type} (wait : ℚ) (calls : List (ℚ × α)) :
    ∀ (ft : ℚ) (b : α), (∀ hd ∈ calls.head?, hd.1 < ft) →
      List.Chain' (fun p q : ℚ × α => p.1 ≤ q.1 ∧ q.1 < p.1 + wait) calls →
      debounceRun wait calls (some (ft, b)) =
        (match calls.getLast? with
          | none => [(ft, b)]
          | some last => [(last.1 + wait, last.2)]) := by
  induction calls with
  | nil => intro ft b _ _; rfl
  | cons c rest ih =>
      intro ft b hhd hch
      rcases c with ⟨t, a⟩
      have hlt : t < ft := by
        have := hhd (t, a) (by simp)
        exact this
      have hrest : ∀ hd ∈ rest.head?, hd.1 < t + wait := by
        intro hd hmem
        cases rest with
        | nil => simp at hmem
        | cons d ds =>
            simp only [List.head?_cons, Option.mem_def, Option.some.injEq] at hmem
            subst hmem
            have := (List.chain'_cons.mp hch).1
            linarith [this.2]
      rw [debounceRun, if_neg (not_le.mpr hlt),
        ih (t + wait) a hrest (List.Chain'.tail hch)]
      cases rest with
      | nil => rfl
      | cons d ds => rfl

/-- C6: for a nonempty burst of calls to a debounced function, each call at
or after the previous one and strictly less than `wait` after it, the
wrapped function is invoked exactly once, at `wait` after the last call of
the burst, with the arguments of that last call. -/
theorem debounce_burst {α : Type} (wait : ℚ) (c : ℚ × α) (rest : List (ℚ × α))
    (hch : List.Chain' (fun p q : ℚ × α => p.1 ≤ q.1 ∧ q.1 < p.1 + wait)
      (c :: rest)) :
    debounceRun wait (c :: rest) none =
      [(((c :: rest).getLast (List.cons_ne_nil c rest)).1 + wait,
        ((c :: rest).getLast (List.cons_ne_nil c rest)).2)] := by
  rcases c with ⟨t, a⟩
  have hrest : ∀ hd ∈ rest.head?, hd.1 < t + wait := by
    intro hd hmem
    cases rest with
    | nil => simp at hmem
    | cons d ds =>
        simp only [List.head?_cons, Option.mem_def, Option.some.injEq] at hmem
        subst hmem
        have := (List.chain'_cons.mp hch).1
        linarith [this.2]
  rw [debounceRun, debounceRun_pending wait rest (t + wait) a hrest
    (List.Chain'.tail hch)]
  cases rest with
  | nil => rfl
  | cons d ds =>
      have hne : (d :: ds) ≠ [] := List.cons_ne_nil d ds
      rw [List.getLast?_eq_getLast (d :: ds) hne]
      have hlast : ((t, a) :: d :: ds).getLast (List.cons_ne_nil _ _)
          = (d :: ds).getLast hne := List.getLast_cons hne
      rw [hlast]

/-- Witness for C6: three calls at times 0, 10, 40 with `wait = 100` produce
exactly one invocation, at time 140, with the last call's argument. -/
theorem debounce_burst_witness :
    debounceRun 100 [((0 : ℚ), (1 : ℕ)), (10, 2), (40, 3)] none
      = [(140, 3)] := by
  have h := @debounce_burst ℕ 100 (0, 1) [(10, 2), (40, 3)]
    (by norm_num [List.chain'_cons])
  norm_num at h
  exact h

/-! ### Claim C3 (controller timer invariants) -/

/-- Removing a token twice is the same as removing it once. -/
theorem classRemove_idem (l : List String) (c : String) :
    classRemove (classRemove l c) c = classRemove l c := by
  simp [classRemove, List.filter_filter]

/-- A fresh controller satisfies the invariant. -/
theorem animInv_make (box : BoxState) :
    AnimInv (AnimCtrl.make box, Sched.start) := by
  refine ⟨by simp [Sched.start], by simp [AnimCtrl.make, Sched.start], ?_, rfl⟩
  intro id hid
  simp [AnimCtrl.make] at hid

/-- `startAnimation` preserves the invariant. -/
theorem startAnimation_inv (p : AnimCtrl × Sched) (h : AnimInv p) :
    AnimInv (startAnimation p) := by
  rcases p with ⟨c, s⟩
  obtain ⟨h1, h2, h3, h4⟩ := h
  by_cases hA : c.isAnimating = true
  · simpa [startAnimation, hA] using ⟨h1, h2, h3, h4⟩
  · rw [Bool.not_eq_true] at hA
    have hnone : c.animationInterval = none := by
      cases hint : c.animationInterval with
      | none => rfl
      | some id => rw [hint] at h4; rw [h4] at hA; simp at hA
    have hact : s.active = [] := by rw [h2, hnone]
    have hstart : startAnimation (c, s) =
        ({ c with isAnimating := true,
                  box := { c.box with
                           classes := classAdd c.box.classes "animate" },
                  rotation := 0,
                  animationInterval := some s.nextId },
         ⟨s.nextId + 1, s.nextId :: s.active⟩) := by
      simp [startAnimation, hA, Sched.setTimer]
    rw [hstart]
    refine ⟨?_, ?_, ?_, rfl⟩
    · show 1 ≤ s.nextId + 1
      omega
    · show s.nextId :: s.active = [s.nextId]
      rw [hact]
    · intro id hid
      have hids : s.nextId = id := Option.some.inj hid
      subst hids
      have h1s : 1 ≤ s.nextId := h1
      show 1 ≤ s.nextId ∧ s.nextId < s.nextId + 1
      omega

/-- `stopAnimation` leaves the handle cleared and, under the invariant, no
live timers; and it preserves the invariant. -/
theorem stopAnimation_clears (p : AnimCtrl × Sched) (h : AnimInv p) :
    (stopAnimation p).1.animationInterval = none
    ∧ (stopAnimation p).2.active = []
    ∧ (stopAnimation p).1.isAnimating = false
    ∧ AnimInv (stopAnimation p) := by
  rcases p with ⟨c, s⟩
  obtain ⟨h1, h2, h3, h4⟩ := h
  have h1s : 1 ≤ s.nextId := h1
  cases hint : c.animationInterval with
  | none =>
      have hact : s.active = [] := by rw [h2, hint]
      refine ⟨?_, ?_, ?_, ?_, ?_, ?_, ?_⟩ <;>
        simp [stopAnimation, hint, hact, h1s]
  | some id =>
      have hid : 1 ≤ id ∧ id < s.nextId := h3 id hint
      have hne : (id != 0) = true := by
        simp only [bne_iff_ne, ne_eq]
        omega
      have hact : s.active = [id] := by rw [h2, hint]
      refine ⟨?_, ?_, ?_, ?_, ?_, ?_, ?_⟩ <;>
        simp [stopAnimation, hint, hne, Sched.clearTimer, hact, h1s]

/-- `resetAnimation` preserves the invariant. -/
theorem resetAnimation_inv (p : AnimCtrl × Sched) (h : AnimInv p) :
    AnimInv (resetAnimation p) := by
  have hs := (stopAnimation_clears p h).2.2.2
  rcases hst : stopAnimation p with ⟨c, s⟩
  rw [hst] at hs
  obtain ⟨h1, h2, h3, h4⟩ := hs
  simp only [resetAnimation, hst]
  exact ⟨h1, h2, h3, h4⟩

/-- A tick firing does not touch the handle, the flag, or the scheduler. -/
theorem animTick_frame (p : AnimCtrl × Sched) :
    (animTick p).1.animationInterval = p.1.animationInterval
    ∧ (animTick p).1.isAnimating = p.1.isAnimating
    ∧ (animTick p).2 = p.2 := by
  rcases p with ⟨c, s⟩
  cases hint : c.animationInterval with
  | none => simp [animTick, hint]
  | some id =>
      by_cases hmem : id ∈ s.active <;>
        simp [animTick, hint, hmem]

/-- A tick firing preserves the invariant (it only touches rotation and
transform). -/
theorem animTick_inv (p : AnimCtrl × Sched) (h : AnimInv p) :
    AnimInv (animTick p) := by
  obtain ⟨hf1, hf2, hf3⟩ := animTick_frame p
  obtain ⟨h1, h2, h3, h4⟩ := h
  refine ⟨?_, ?_, ?_, ?_⟩
  · rw [hf3]; exact h1
  · rw [hf3, hf1]; exact h2
  · intro id hid
    rw [hf1] at hid
    rw [hf3]
    exact h3 id hid
  · rw [hf2, hf1]; exact h4


/-- Every state reachable by a fresh `AnimationController` satisfies the
invariant. -/
theorem execAnim_inv (box : BoxState) (ops : List AnimOp) :
    AnimInv (execAnim box ops) := by
  suffices hgen : ∀ (l : List AnimOp) (p : AnimCtrl × Sched), AnimInv p →
      AnimInv (l.foldl
        (fun p op =>
          match op with
          | .start => startAnimation p
          | .stop => stopAnimation p
          | .reset => resetAnimation p
          | .tick => animTick p) p) by
    exact hgen ops _ (animInv_make box)
  intro l
  induction l with
  | nil => intro p hp; exact hp
  | cons op rest ih =>
      intro p hp
      cases op with
      | start => exact ih _ (startAnimation_inv p hp)
      | stop => exact ih _ (stopAnimation_clears p hp).2.2.2
      | reset => exact ih _ (resetAnimation_inv p hp)
      | tick => exact ih _ (animTick_inv p hp)

/-- A fresh loading manager satisfies the invariant. -/
theorem loadInv_make (bar : List String) (txt : String) :
    LoadInv (LoadMgr.make bar txt, Sched.start) := by
  refine ⟨by simp [Sched.start], by simp [LoadMgr.make, Sched.start], ?_, rfl⟩
  intro id hid
  simp [LoadMgr.make] at hid

/-- `startLoading` preserves the invariant. -/
theorem startLoading_inv (p : LoadMgr × Sched) (h : LoadInv p) :
    LoadInv (startLoading p) := by
  rcases p with ⟨m, s⟩
  obtain ⟨h1, h2, h3, h4⟩ := h
  by_cases hL : m.isLoading = true
  · simpa [startLoading, hL] using ⟨h1, h2, h3, h4⟩
  · rw [Bool.not_eq_true] at hL
    have hnone : m.loadingInterval = none := by
      cases hint : m.loadingInterval with
      | none => rfl
      | some id => rw [hint] at h4; rw [h4] at hL; simp at hL
    have hact : s.active = [] := by rw [h2, hnone]
    have hstart : startLoading (m, s) =
        ({ m with isLoading := true,
                  barClasses := classAdd m.barClasses "loading",
                  statusText := "Loading...",
                  progress := 0,
                  loadingInterval := some s.nextId },
         ⟨s.nextId + 1, s.nextId :: s.active⟩) := by
      simp [startLoading, hL, Sched.setTimer]
    rw [hstart]
    refine ⟨?_, ?_, ?_, rfl⟩
    · show 1 ≤ s.nextId + 1
      omega
    · show s.nextId :: s.active = [s.nextId]
      rw [hact]
    · intro id hid
      have hids : s.nextId = id := Option.some.inj hid
      subst hids
      have h1s : 1 ≤ s.nextId := h1
      show 1 ≤ s.nextId ∧ s.nextId < s.nextId + 1
      omega

/-- `stopLoading` leaves the handle cleared and, under the invariant, no
live timers; and it preserves the invariant. -/
theorem stopLoading_clears (p : LoadMgr × Sched) (h : LoadInv p) :
    (stopLoading p).1.loadingInterval = none
    ∧ (stopLoading p).2.active = []
    ∧ (stopLoading p).1.isLoading = false
    ∧ (stopLoading p).1.statusText = "Stopped"
    ∧ LoadInv (stopLoading p) := by
  rcases p with ⟨m, s⟩
  obtain ⟨h1, h2, h3, h4⟩ := h
  have h1s : 1 ≤ s.nextId := h1
  cases hint : m.loadingInterval with
  | none =>
      have hact : s.active = [] := by rw [h2, hint]
      refine ⟨?_, ?_, ?_, ?_, ?_, ?_, ?_, ?_⟩ <;>
        simp [stopLoading, hint, hact, h1s]
  | some id =>
      have hid : 1 ≤ id ∧ id < s.nextId := h3 id hint
      have hne : (id != 0) = true := by
        simp only [bne_iff_ne, ne_eq]
        omega
      have hact : s.active = [id] := by rw [h2, hint]
      refine ⟨?_, ?_, ?_, ?_, ?_, ?_, ?_, ?_⟩ <;>
        simp [stopLoading, hint, hne, Sched.clearTimer, hact, h1s]

/-- `finishLoading` likewise clears the handle and the live timers. -/
theorem finishLoading_clears (p : LoadMgr × Sched) (h : LoadInv p) :
    (finishLoading p).1.loadingInterval = none
    ∧ (finishLoading p).2.active = []
    ∧ (finishLoading p).1.isLoading = false
    ∧ (finishLoading p).1.statusText = "Complete!"
    ∧ LoadInv (finishLoading p) := by
  rcases p with ⟨m, s⟩
  obtain ⟨h1, h2, h3, h4⟩ := h
  have h1s : 1 ≤ s.nextId := h1
  cases hint : m.loadingInterval with
  | none =>
      have hact : s.active = [] := by rw [h2, hint]
      refine ⟨?_, ?_, ?_, ?_, ?_, ?_, ?_, ?_⟩ <;>
        simp [finishLoading, hint, hact, h1s]
  | some id =>
      have hid : 1 ≤ id ∧ id < s.nextId := h3 id hint
      have hne : (id != 0) = true := by
        simp only [bne_iff_ne, ne_eq]
        omega
      have hact : s.active = [id] := by rw [h2, hint]
      refine ⟨?_, ?_, ?_, ?_, ?_, ?_, ?_, ?_⟩ <;>
        simp [finishLoading, hint, hne, Sched.clearTimer, hact, h1s]

/-- A loading tick preserves the invariant. -/
theorem loadTick_inv (r : ℚ) (p : LoadMgr × Sched) (h : LoadInv p) :
    LoadInv (loadTick r p) := by
  rcases p with ⟨m, s⟩
  obtain ⟨h1, h2, h3, h4⟩ := h
  cases hint : m.loadingInterval with
  | none => simpa [loadTick, hint] using ⟨h1, h2, h3, h4⟩
  | some id =>
      by_cases hmem : id ∈ s.active
      · have hinv1 : LoadInv ({ m with progress := m.progress + r }, s) := by
          refine ⟨h1, ?_, ?_, ?_⟩
          · show s.active = _
            exact h2
          · intro j hj
            exact h3 j hj
          · show m.isLoading = _
            exact h4
        by_cases hcross : m.progress + r ≥ 100
        · have := (finishLoading_clears ({ m with progress := m.progress + r }, s) hinv1).2.2.2.2
          simpa [loadTick, hint, hmem, hcross] using this
        · simpa [loadTick, hint, hmem, hcross] using hinv1
      · simpa [loadTick, hint, hmem] using ⟨h1, h2, h3, h4⟩

/-- Every state reachable by a fresh `LoadingManager` satisfies the
invariant. -/
theorem execLoad_inv (bar : List String) (txt : String) (ops : List LoadOp) :
    LoadInv (execLoad bar txt ops) := by
  suffices hgen : ∀ (l : List LoadOp) (p : LoadMgr × Sched), LoadInv p →
      LoadInv (l.foldl
        (fun p op =>
          match op with
          | .start => startLoading p
          | .stop => stopLoading p
          | .finish => finishLoading p
          | .tick r => loadTick r p) p) by
    exact hgen ops _ (loadInv_make bar txt)
  intro l
  induction l with
  | nil => intro p hp; exact hp
  | cons op rest ih =>
      intro p hp
      cases op with
      | start => exact ih _ (startLoading_inv p hp)
      | stop => exact ih _ (stopLoading_clears p hp).2.2.2.2
      | finish => exact ih _ (finishLoading_clears p hp).2.2.2.2
      | tick r => exact ih _ (loadTick_inv r p hp)

/-- `stopAnimation` is idempotent on every state. -/
theorem stopAnimation_idem (p : AnimCtrl × Sched) :
    stopAnimation (stopAnimation p) = stopAnimation p := by
  rcases p with ⟨c, s⟩
  cases hint : c.animationInterval with
  | none => simp [stopAnimation, hint, classRemove_idem]
  | some id =>
      by_cases h0 : (id != 0) = true
      · simp [stopAnimation, hint, h0, classRemove_idem]
      · rw [Bool.not_eq_true] at h0
        simp [stopAnimation, hint, h0, classRemove_idem]

/-- `stopLoading` is idempotent on every state. -/
theorem stopLoading_idem (p : LoadMgr × Sched) :
    stopLoading (stopLoading p) = stopLoading p := by
  rcases p with ⟨m, s⟩
  cases hint : m.loadingInterval with
  | none => simp [stopLoading, hint, classRemove_idem]
  | some id =>
      by_cases h0 : (id != 0) = true
      · simp [stopLoading, hint, h0, classRemove_idem]
      · rw [Bool.not_eq_true] at h0
        simp [stopLoading, hint, h0, classRemove_idem]

/-- C3: each controller holds at most one live timer at any reachable
state; starting while already active changes nothing; the stop-equivalent
operations are idempotent and always leave the handle cleared and the live
timer set empty, from any reachable state (including states with no live
timer). -/
theorem controllers_timer_discipline :
    (∀ (box : BoxState) (ops : List AnimOp),
        (execAnim box ops).2.active.length ≤ 1)
    ∧ (∀ p : AnimCtrl × Sched, p.1.isAnimating = true → startAnimation p = p)
    ∧ (∀ p : AnimCtrl × Sched, stopAnimation (stopAnimation p) = stopAnimation p)
    ∧ (∀ (box : BoxState) (ops : List AnimOp),
        (stopAnimation (execAnim box ops)).1.animationInterval = none
        ∧ (stopAnimation (execAnim box ops)).2.active = [])
    ∧ (∀ (bar : List String) (txt : String) (ops : List LoadOp),
        (execLoad bar txt ops).2.active.length ≤ 1)
    ∧ (∀ p : LoadMgr × Sched, p.1.isLoading = true → startLoading p = p)
    ∧ (∀ p : LoadMgr × Sched, stopLoading (stopLoading p) = stopLoading p)
    ∧ (∀ (bar : List String) (txt : String) (ops : List LoadOp),
        (stopLoading (execLoad bar txt ops)).1.loadingInterval = none
        ∧ (stopLoading (execLoad bar txt ops)).2.active = []
        ∧ (finishLoading (execLoad bar txt ops)).1.loadingInterval = none
        ∧ (finishLoading (execLoad bar txt ops)).2.active = []) := by
  refine ⟨?_, ?_, stopAnimation_idem, ?_, ?_, ?_, stopLoading_idem, ?_⟩
  · intro box ops
    obtain ⟨-, h2, -, -⟩ := execAnim_inv box ops
    rw [h2]
    cases (execAnim box ops).1.animationInterval <;> simp
  · intro p hp
    rcases p with ⟨c, s⟩
    have hp1 : c.isAnimating = true := hp
    simp [startAnimation, hp1]
  · intro box ops
    exact ⟨(stopAnimation_clears _ (execAnim_inv box ops)).1,
      (stopAnimation_clears _ (execAnim_inv box ops)).2.1⟩
  · intro bar txt ops
    obtain ⟨-, h2, -, -⟩ := execLoad_inv bar txt ops
    rw [h2]
    cases (execLoad bar txt ops).1.loadingInterval <;> simp
  · intro p hp
    rcases p with ⟨m, s⟩
    have hp1 : m.isLoading = true := hp
    simp [startLoading, hp1]
  · intro bar txt ops
    exact ⟨(stopLoading_clears _ (execLoad_inv bar txt ops)).1,
      (stopLoading_clears _ (execLoad_inv bar txt ops)).2.1,
      (finishLoading_clears _ (execLoad_inv bar txt ops)).1,
      (finishLoading_clears _ (execLoad_inv bar txt ops)).2.1⟩

/-- Witness for C3 at concrete states: a doubly started controller has one
live timer; starting an already animating controller is the identity;
stopping after a start clears handle and timers; same on the loading side. -/
theorem controllers_timer_discipline_witness :
    (execAnim ⟨[], "", ""⟩ [.start, .start]).2.active.length ≤ 1
    ∧ startAnimation (execAnim ⟨[], "", ""⟩ [.start])
        = execAnim ⟨[], "", ""⟩ [.start]
    ∧ (stopAnimation (execAnim ⟨[], "", ""⟩ [.start])).1.animationInterval
        = none
    ∧ startLoading (execLoad [] "idle" [.start]) = execLoad [] "idle" [.start]
    ∧ (stopLoading (execLoad [] "idle" [.start])).2.active = [] :=
  ⟨controllers_timer_discipline.1 ⟨[], "", ""⟩ [.start, .start],
   controllers_timer_discipline.2.1 (execAnim ⟨[], "", ""⟩ [.start]) rfl,
   (controllers_timer_discipline.2.2.2.1 ⟨[], "", ""⟩ [.start]).1,
   controllers_timer_discipline.2.2.2.2.2.1 (execLoad [] "idle" [.start]) rfl,
   (controllers_timer_discipline.2.2.2.2.2.2.2 [] "idle" [.start]).2.1⟩

/-! ### Claim C4 (resetAnimation refinement) -/

/-- C4: `resetAnimation` produces exactly the state of `stopAnimation`
followed by restoring the canonical default transform and background
(`resetSpec`, written from the spec sentence); and after any reachable
state it leaves the controller stopped with no handle, no live timers, and
the default transform and background. -/
theorem resetAnimation_equiv :
    (∀ p : AnimCtrl × Sched, resetAnimation p = resetSpec p)
    ∧ ∀ (box : BoxState) (ops : List AnimOp),
        (resetAnimation (execAnim box ops)).1.isAnimating = false
        ∧ (resetAnimation (execAnim box ops)).1.animationInterval = none
        ∧ (resetAnimation (execAnim box ops)).2.active = []
        ∧ (resetAnimation (execAnim box ops)).1.box.transform = "rotate(0deg)"
        ∧ (resetAnimation (execAnim box ops)).1.box.background
            = "linear-gradient(45deg, #667eea, #764ba2)" := by
  constructor
  · intro p
    rcases hst : stopAnimation p with ⟨c, s⟩
    simp [resetAnimation, resetSpec, hst]
  · intro box ops
    obtain ⟨hh, ha, hf, -⟩ :=
      stopAnimation_clears (execAnim box ops) (execAnim_inv box ops)
    rcases hst : stopAnimation (execAnim box ops) with ⟨c, s⟩
    rw [hst] at hh ha hf
    have hf1 : c.isAnimating = false := hf
    have hh1 : c.animationInterval = none := hh
    have ha1 : s.active = [] := ha
    simp only [resetAnimation, hst]
    simp [hf1, hh1, ha1]

/-! ### Claim C5 (LoadingManager run) -/

/-- Starting a fresh manager yields the loading state with zero progress. -/
theorem startLoading_fresh (bar : List String) (txt : String) :
    startLoading (LoadMgr.make bar txt, Sched.start)
      = loadingState bar txt 0 := by
  simp [startLoading, LoadMgr.make, Sched.start, Sched.setTimer, loadingState]

/-- A tick that keeps progress below 100 stays in the loading state. -/
theorem loadTick_loading (bar : List String) (txt : String) (r p : ℚ)
    (hlt : p + r < 100) :
    loadTick r (loadingState bar txt p) = loadingState bar txt (p + r) := by
  simp [loadTick, loadingState, not_le.mpr hlt]

/-- The tick on which progress reaches or crosses 100 calls
`finishLoading` and produces the complete state. -/
theorem loadTick_complete (bar : List String) (txt : String) (r p : ℚ)
    (hge : 100 ≤ p + r) :
    loadTick r (loadingState bar txt p) = completeState bar txt (p + r) := by
  simp [loadTick, loadingState, completeState, finishLoading, hge,
    Sched.clearTimer]

/-- Once complete, further ticks change nothing (the interval is gone). -/
theorem runTicks_complete (bar : List String) (txt : String) (p : ℚ)
    (rs : List ℚ) :
    runTicks rs (completeState bar txt p) = completeState bar txt p := by
  induction rs with
  | nil => rfl
  | cons r rest ih =>
      have hstep : loadTick r (completeState bar txt p)
          = completeState bar txt p := by
        simp [loadTick, completeState]
      calc runTicks (r :: rest) (completeState bar txt p)
          = runTicks rest (loadTick r (completeState bar txt p)) := rfl
        _ = runTicks rest (completeState bar txt p) := by rw [hstep]
        _ = completeState bar txt p := ih

/-- While every partial sum stays below 100 the manager stays loading and
accumulates the increments. -/
theorem runTicks_loading (bar : List String) (txt : String) (rs : List ℚ) :
    ∀ p : ℚ, (∀ k, k ≤ rs.length → p + (rs.take k).sum < 100) →
      runTicks rs (loadingState bar txt p)
        = loadingState bar txt (p + rs.sum) := by
  induction rs with
  | nil =>
      intro p _
      simp [runTicks]
  | cons r rest ih =>
      intro p hp
      have h1 : p + r < 100 := by
        have := hp 1 (by simp)
        simpa using this
      have hstep : runTicks (r :: rest) (loadingState bar txt p)
          = runTicks rest (loadingState bar txt (p + r)) := by
        have : loadTick r (loadingState bar txt p)
            = loadingState bar txt (p + r) := loadTick_loading bar txt r p h1
        calc runTicks (r :: rest) (loadingState bar txt p)
            = runTicks rest (loadTick r (loadingState bar txt p)) := rfl
          _ = runTicks rest (loadingState bar txt (p + r)) := by rw [this]
      rw [hstep, ih (p + r) ?_]
      · rw [List.sum_cons, ← add_assoc]
      · intro k hk
        have := hp (k + 1) (by simpa using Nat.succ_le_succ hk)
        simpa [add_assoc] using this

/-- If the total eventually reaches 100, the run ends in the complete
state. -/
theorem runTicks_crossing (bar : List String) (txt : String) (rs : List ℚ) :
    ∀ p : ℚ, p < 100 → 100 ≤ p + rs.sum →
      ∃ pf, runTicks rs (loadingState bar txt p)
        = completeState bar txt pf := by
  induction rs with
  | nil =>
      intro p hlt hge
      simp only [List.sum_nil, add_zero] at hge
      linarith
  | cons r rest ih =>
      intro p hlt hge
      by_cases hcr : 100 ≤ p + r
      · refine ⟨p + r, ?_⟩
        calc runTicks (r :: rest) (loadingState bar txt p)
            = runTicks rest (loadTick r (loadingState bar txt p)) := rfl
          _ = runTicks rest (completeState bar txt (p + r)) := by
              rw [loadTick_complete bar txt r p hcr]
          _ = completeState bar txt (p + r) := runTicks_complete bar txt _ rest
      · push_neg at hcr
        have hstep : runTicks (r :: rest) (loadingState bar txt p)
            = runTicks rest (loadingState bar txt (p + r)) := by
          calc runTicks (r :: rest) (loadingState bar txt p)
              = runTicks rest (loadTick r (loadingState bar txt p)) := rfl
            _ = runTicks rest (loadingState bar txt (p + r)) := by
                rw [loadTick_loading bar txt r p hcr]
        rw [hstep]
        refine ih (p + r) hcr ?_
        rw [List.sum_cons] at hge
        linarith

/-- The loading state satisfies the timer invariant. -/
theorem loadingState_inv (bar : List String) (txt : String) (p : ℚ) :
    LoadInv (loadingState bar txt p) := by
  refine ⟨by simp [loadingState], by simp [loadingState], ?_, rfl⟩
  intro id hid
  have : (1 : ℕ) = id := Option.some.inj hid
  subst this
  simp [loadingState]

/-- C5: a run started from idle stays loading (status `Loading...`, timer
live) while every partial progress sum is below 100; on the first tick
whose accumulated progress reaches or crosses 100 it transitions to
`Complete!` with the flag down, the handle cleared and no live timers; and
a user stop before completion yields `Stopped` with the handle cleared and
no live timers. -/
theorem loadingManager_run (bar : List String) (txt : String) (rs : List ℚ) :
    ((∀ k, k ≤ rs.length → (rs.take k).sum < 100) →
      runTicks rs (startLoading (LoadMgr.make bar txt, Sched.start))
        = loadingState bar txt rs.sum)
    ∧ (100 ≤ rs.sum →
        (runTicks rs (startLoading (LoadMgr.make bar txt,
            Sched.start))).1.statusText = "Complete!"
        ∧ (runTicks rs (startLoading (LoadMgr.make bar txt,
            Sched.start))).1.loadingInterval = none
        ∧ (runTicks rs (startLoading (LoadMgr.make bar txt,
            Sched.start))).1.isLoading = false
        ∧ (runTicks rs (startLoading (LoadMgr.make bar txt,
            Sched.start))).2.active = [])
    ∧ ((∀ k, k ≤ rs.length → (rs.take k).sum < 100) →
        (stopLoading (runTicks rs (startLoading (LoadMgr.make bar txt,
            Sched.start)))).1.statusText = "Stopped"
        ∧ (stopLoading (runTicks rs (startLoading (LoadMgr.make bar txt,
            Sched.start)))).1.loadingInterval = none
        ∧ (stopLoading (runTicks rs (startLoading (LoadMgr.make bar txt,
            Sched.start)))).2.active = []) := by
  refine ⟨?_, ?_, ?_⟩
  · intro hbelow
    rw [startLoading_fresh]
    have := runTicks_loading bar txt rs 0 (by simpa using hbelow)
    simpa using this
  · intro hcross
    rw [startLoading_fresh]
    obtain ⟨pf, hpf⟩ := runTicks_crossing bar txt rs 0 (by norm_num)
      (by simpa using hcross)
    rw [hpf]
    refine ⟨rfl, rfl, rfl, rfl⟩
  · intro hbelow
    rw [startLoading_fresh]
    have hrun := runTicks_loading bar txt rs 0 (by simpa using hbelow)
    rw [hrun]
    obtain ⟨hh, ha, -, hs, -⟩ :=
      stopLoading_clears (loadingState bar txt (0 + rs.sum))
        (loadingState_inv bar txt (0 + rs.sum))
    exact ⟨hs, hh, ha⟩

/-- Witness for C5: the run `[30]` stays loading and then stops to
`Stopped`; the run `[60, 50]` completes on its second tick. -/
theorem loadingManager_run_witness :
    runTicks [(30 : ℚ)] (startLoading (LoadMgr.make [] "idle", Sched.start))
      = loadingState [] "idle" (List.sum [(30 : ℚ)])
    ∧ (runTicks [(60 : ℚ), 50] (startLoading (LoadMgr.make [] "idle",
        Sched.start))).1.statusText = "Complete!"
    ∧ (stopLoading (runTicks [(30 : ℚ)] (startLoading (LoadMgr.make []
        "idle", Sched.start)))).1.statusText = "Stopped" := by
  have hbelow : ∀ k, k ≤ [(30 : ℚ)].length → ([(30 : ℚ)].take k).sum < 100 := by
    intro k hk
    simp only [List.length_cons, List.length_nil] at hk
    interval_cases k <;> norm_num
  exact ⟨(loadingManager_run [] "idle" [(30 : ℚ)]).1 hbelow,
    ((loadingManager_run [] "idle" [(60 : ℚ), 50]).2.1 (by norm_num)).1,
    ((loadingManager_run [] "idle" [(30 : ℚ)]).2.2 hbelow).1⟩
